import Mathlib

/-!
Verification of the VaR notebook (src/finance/value-at-risk/main.py) and the
readiness-polling script (src/wait.py).

The notebook declares a data model (CSV stores, joins, a cube with a
Trading Book Hierarchy) and measures (Quantity, Position Vector, VaR,
Parent Position Vector Ex, Parent VaR, Parent VaR Ex, Marginal VaR) whose
evaluation is delegated to a closed-source analytics engine.  The store and
measure declarations below are translated from the notebook source; the
engine semantics (aggregation scopes, array quantile, measure and data
scenarios) is modelled from the specification, which documents the
externally observable computation.
-/

namespace VaRNotebook

/-- A row of the Instruments store (instruments.csv, key instrument_code);
only the key takes part in the computation, the rest is descriptive. -/
structure Instrument where
  description : String
deriving DecidableEq, Repr

/-- A row of the Instruments Analytics store
(instruments_pricing_vol_depth_272.csv, key instrument_code): the previous
day PnL and the historical PnL vector of the instrument. -/
structure InstrumentAnalytics where
  pnl : ℚ
  pnl_vector : List ℚ
deriving DecidableEq, Repr

/-- A row of the Positions store (positions.csv, keys instrument_code and
book_id). -/
structure Position where
  instrument_code : String
  book_id : String
  quantity : ℚ
  purchase_price : ℚ
deriving DecidableEq, Repr

/-- A row of the Trading Desk store (trading_desk.csv, key book_id): the
four levels of the Trading Book Hierarchy. -/
structure TradingDesk where
  business_unit : String
  sub_business_unit : String
  trading_desk : String
  book : String
deriving DecidableEq, Repr

/-- The joined base data: the Positions store together with the keyed
stores it joins to (positions.join(instruments),
positions.join(trading_desks); a keyed store is a partial map from its
key). -/
structure Database where
  instruments : String → Option Instrument
  positions : List Position
  tradingDesks : String → Option TradingDesk

/-- A simulation scenario: the analytics store contents (the base 272-day
source, or the 150-day source loaded in the Model short Volatility data
scenario) together with the value of the Confidence Level measure (replaced
by the Confidence Level measure simulation). -/
structure Scenario where
  analytics : String → Option InstrumentAnalytics
  confidenceLevel : ℚ

/-- Modelled from the spec: element-wise sum of two PnL vectors, as the
engine aggregates vector measures; the empty vector is the identity. -/
def vecAdd : List ℚ → List ℚ → List ℚ
  | [], w => w
  | v, [] => v
  | x :: v, y :: w => (x + y) :: vecAdd v w

/-- Scaling of a PnL vector by a quantity, element-wise. -/
def vecScale (q : ℚ) (v : List ℚ) : List ℚ :=
  v.map (fun x => q * x)

/-- Element-wise sum of a list of PnL vectors. -/
def vecSum (vs : List (List ℚ)) : List ℚ :=
  vs.foldr vecAdd []

/-- The four levels of the Trading Book Hierarchy of a trading desk row:
Business Unit, Sub Business Unit, Trading Desk, Book. -/
def deskPath (t : TradingDesk) : List String :=
  [t.business_unit, t.sub_business_unit, t.trading_desk, t.book]

/-- Whether the first path is an initial segment of the second: a hierarchy
node is identified with the list of its level members from the top. -/
def pathUnder : List String → List String → Bool
  | [], _ => true
  | _ :: _, [] => false
  | x :: xs, y :: ys => x == y && pathUnder xs ys

/-- Modelled from the spec: a position rolls up into a hierarchy node when
its book joins to a trading desk row whose path passes through the node. -/
def rollsUp (db : Database) (node : List String) (p : Position) : Bool :=
  match db.tradingDesks p.book_id with
  | none => false
  | some t => pathUnder node (deskPath t)

/-- The positions rolling up into a node. -/
def nodePositions (db : Database) (node : List String) : List Position :=
  db.positions.filter (rollsUp db node)

/-- The measure Quantity = quantity.SUM: the sum of the quantities of the
positions rolling up into the node.  It reads no scenario data, so it takes
the scenario as an unused argument to state frame properties. -/
def Quantity (db : Database) (_sc : Scenario) (node : List String) : ℚ :=
  ((nodePositions db node).map Position.quantity).sum

/-- The quantity held at a node on one instrument: the value of quantity.SUM
at the instrument_code member inside the node. -/
def quantityOf (db : Database) (node : List String) (code : String) : ℚ :=
  (((nodePositions db node).filter
      (fun p => p.instrument_code == code)).map Position.quantity).sum

/-- The measure pnl_vector.VALUE of one instrument in a scenario. -/
def pnlVector (sc : Scenario) (code : String) : List ℚ :=
  match sc.analytics code with
  | some a => a.pnl_vector
  | none => []

/-- The instrument_code members present below a node. -/
def nodeInstruments (db : Database) (node : List String) : List String :=
  ((nodePositions db node).map Position.instrument_code).dedup

/-- The measure Position Vector = atoti.agg.sum(Quantity * pnl_vector.VALUE,
scope origin(instrument_code)): the scaled vector is taken per instrument
member and the results are summed element-wise up to the node. -/
def positionVector (db : Database) (sc : Scenario) (node : List String) : List ℚ :=
  vecSum ((nodeInstruments db node).map
    (fun c => vecScale (quantityOf db node c) (pnlVector sc c)))

/-- Modelled from the spec: linear interpolation quantile over the sorted
vector at level p between 0 and 1. -/
def quantileLin (v : List ℚ) (p : ℚ) : ℚ :=
  let s := List.insertionSort (fun a b : ℚ => a ≤ b) v
  let h := p * ((s.length : ℚ) - 1)
  let i := (⌊h⌋).toNat
  let lo := s.getD i 0
  let hi := s.getD (i + 1) lo
  lo + (h - (i : ℚ)) * (hi - lo)

/-- Modelled from the spec: atoti.array.quantile at confidence level c reads
the (1 - c)-quantile of the vector, and an empty vector renders the quantile
undefined, an explicit failure rather than a sentinel value. -/
def quantile (v : List ℚ) (c : ℚ) : Option ℚ :=
  if v.isEmpty then none else some (quantileLin v (1 - c))

/-- The measure VaR = atoti.array.quantile(Position Vector, Confidence
Level). -/
def VaR (db : Database) (sc : Scenario) (node : List String) : Option ℚ :=
  quantile (positionVector db sc node) sc.confidenceLevel

/-- The member of the level right below a given parent node that a position
belongs to (meaningful when the position rolls up into the parent and the
parent is not a leaf). -/
def childOf (db : Database) (parent : List String) (p : Position) : String :=
  match db.tradingDesks p.book_id with
  | some t => (deskPath t).getD parent.length blank
  | none => blank
where
  blank : String := ""

/-- The members of the level right below a parent node. -/
def childValues (db : Database) (parent : List String) : List String :=
  ((nodePositions db parent).map (childOf db parent)).dedup

/-- The measure Parent Position Vector Ex = atoti.agg.sum(Position Vector,
scope siblings(Trading Book Hierarchy, exclude_self)): the element-wise sum
of the Position Vectors of the siblings of the node, the node excluded. -/
def parentPositionVectorEx (db : Database) (sc : Scenario) (node : List String) : List ℚ :=
  vecSum (((childValues db node.dropLast).filter
      (fun v => !(v == node.getLastD (childOf.blank)))).map
    (fun v => positionVector db sc (node.dropLast ++ [v])))

/-- The measure Parent VaR Ex = atoti.array.quantile(Parent Position Vector
Ex, Confidence Level). -/
def parentVaREx (db : Database) (sc : Scenario) (node : List String) : Option ℚ :=
  quantile (parentPositionVectorEx db sc node) sc.confidenceLevel

/-- The measure Parent VaR = atoti.parent_value(VaR, Trading Book
Hierarchy): VaR evaluated at the parent node. -/
def parentVaR (db : Database) (sc : Scenario) (node : List String) : Option ℚ :=
  VaR db sc node.dropLast

/-- The measure Marginal VaR = Parent VaR - Parent VaR Ex; an undefined
operand makes the difference undefined. -/
def marginalVaR (db : Database) (sc : Scenario) (node : List String) : Option ℚ :=
  match parentVaR db sc node, parentVaREx db sc node with
  | some a, some b => some (a - b)
  | _, _ => none

/-- The Confidence Level measure simulation of the notebook: scenario name
to replaced measure value (base scenario 95 percent). -/
def confidence_levels (name : String) : Option ℚ :=
  if name == ("95%") then some 0.95
  else if name == ("90%") then some 0.90
  else if name == ("98%") then some 0.98
  else if name == ("99%") then some 0.99
  else if name == ("Worst") then some 1.0
  else none

/-- The analytics store data scenarios of the notebook: the base scenario
holds the 272-day source, the Model short Volatility scenario the 150-day
source. -/
def analyticsScenarios (base shortVol : String → Option InstrumentAnalytics)
    (name : String) : String → Option InstrumentAnalytics :=
  if name == ("Model short Volatility") then shortVol else base

/-- Modelled from the spec: a position is orphaned when its instrument code
is absent from the Instruments or the Instruments Analytics store, or its
book id is absent from the Trading Desk store. -/
def orphaned (db : Database) (an : String → Option InstrumentAnalytics)
    (p : Position) : Bool :=
  (db.instruments p.instrument_code).isNone
    || (an p.instrument_code).isNone
    || (db.tradingDesks p.book_id).isNone

/-- Modelled from the spec: the orphaned-reference report of the load, each
position with a dangling foreign key. -/
def orphanReport (db : Database) (an : String → Option InstrumentAnalytics) :
    List Position :=
  db.positions.filter (orphaned db an)

/-- Modelled from the spec: the positions of the joined model, those whose
foreign keys all resolve. -/
def joinedPositions (db : Database) (an : String → Option InstrumentAnalytics) :
    List Position :=
  db.positions.filter (fun p => !(orphaned db an p))

/-- The join structure of one position: whether its instrument code resolves
in Instruments, whether it resolves in Instruments Analytics, and whether
its book id resolves in Trading Desk. -/
def joinStructure (db : Database) (sc : Scenario) (p : Position) :
    Bool × Bool × Bool :=
  ((db.instruments p.instrument_code).isSome,
   (sc.analytics p.instrument_code).isSome,
   (db.tradingDesks p.book_id).isSome)

end VaRNotebook

namespace WaitScript

/-!
Model of src/wait.py: an unbounded loop that issues a GET request to the
readiness endpoint, breaks on HTTP status 200, and otherwise logs and sleeps
two seconds before retrying; any exception of the request is caught, logged,
and followed by the same sleep.  The environment is a sequence of responses
indexed by attempt number; the loop is run on an explicit fuel so that
non-termination is the statement that no fuel suffices.
-/

/-- The outcome of one GET request: an HTTP status code, or a raised
exception carrying its message. -/
inductive Response where
  | status (code : Nat)
  | exc (msg : String)
deriving DecidableEq, Repr

/-- An observable action of the script: a print, or a sleep of a number of
seconds. -/
inductive Event where
  | printed (s : String)
  | slept (seconds : Nat)
deriving DecidableEq, Repr

/-- The body of the try block for one response: the events it emits and
whether it breaks, or the exception it lets escape. -/
def tryBody : Response → Except String (List Event × Bool)
  | .status c =>
    if c == 200 then .ok ([.printed ("URL is ready")], true)
    else .ok ([.printed (("Waiting for URL, current status is ") ++ toString c)], false)
  | .exc m => .error m

/-- One loop iteration: the try body with the except handler around it,
which prints the exception and the failure line; every non-breaking path
then sleeps two seconds. -/
def iteration (r : Response) : List Event × Bool :=
  match tryBody r with
  | .ok (evs, broke) => if broke then (evs, true) else (evs ++ [.slept 2], false)
  | .error m =>
    ([.printed m, .printed ("Waiting for URL, connexion failed"), .slept 2], false)

/-- Running the loop from attempt i for a given fuel: the trace of events
and the attempt index at which it broke, if it did. -/
def runFor (resp : Nat → Response) (i : Nat) : Nat → List Event × Option Nat
  | 0 => ([], none)
  | fuel + 1 =>
    if (iteration (resp i)).2 then ((iteration (resp i)).1, some i)
    else ((iteration (resp i)).1 ++ (runFor resp (i + 1) fuel).1,
          (runFor resp (i + 1) fuel).2)

/-- A response is a success exactly when it is HTTP status 200. -/
def isSuccess : Response → Bool
  | .status c => c == 200
  | .exc _ => false

end WaitScript

namespace VaRNotebook

/-- A concrete position for concrete evaluations. -/
def wPosition : Position :=
  { instrument_code := ("I1"), book_id := ("B1"), quantity := 2, purchase_price := 10 }

/-- A second concrete position, in another book. -/
def wPosition2 : Position :=
  { instrument_code := ("I2"), book_id := ("B2"), quantity := 3, purchase_price := 8 }

/-- A concrete trading desk row. -/
def wDesk : TradingDesk :=
  { business_unit := ("BU1"), sub_business_unit := ("S1"),
    trading_desk := ("T1"), book := ("B1") }

/-- A second concrete trading desk row, in another business unit. -/
def wDesk2 : TradingDesk :=
  { business_unit := ("BU2"), sub_business_unit := ("S2"),
    trading_desk := ("T2"), book := ("B2") }

/-- A concrete analytics row with a three-day PnL vector. -/
def wAnalytics : InstrumentAnalytics :=
  { pnl := 1, pnl_vector := [1, -2, 3] }

/-- A second concrete analytics row. -/
def wAnalytics2 : InstrumentAnalytics :=
  { pnl := -1, pnl_vector := [-4, 5, 0] }

/-- A concrete analytics store holding both analytics rows. -/
def wAnalyticsStore : String → Option InstrumentAnalytics :=
  fun c =>
    if c == ("I1") then some wAnalytics
    else if c == ("I2") then some wAnalytics2
    else none

/-- A concrete single-position database. -/
def wDb : Database :=
  { instruments := fun c => if c == ("I1") then some ⟨("EURUSD")⟩ else none,
    positions := [wPosition],
    tradingDesks := fun b => if b == ("B1") then some wDesk else none }

/-- A concrete two-position database with two business units. -/
def wDb2 : Database :=
  { instruments := fun c =>
      if c == ("I1") then some ⟨("EURUSD")⟩
      else if c == ("I2") then some ⟨("USDJPY")⟩
      else none,
    positions := [wPosition, wPosition2],
    tradingDesks := fun b =>
      if b == ("B1") then some wDesk
      else if b == ("B2") then some wDesk2
      else none }

/-- A concrete scenario at the base confidence level. -/
def wSc : Scenario :=
  { analytics := wAnalyticsStore, confidenceLevel := 0.95 }

/-- A concrete scenario at the Worst confidence level. -/
def wScWorst : Scenario :=
  { analytics := wAnalyticsStore, confidenceLevel := 1 }

/-- A concrete short-history analytics row for the first instrument. -/
def wAnalytics150 : InstrumentAnalytics :=
  { pnl := 2, pnl_vector := [7, -1] }

/-- A concrete short-history analytics row for the second instrument. -/
def wAnalytics150b : InstrumentAnalytics :=
  { pnl := 0, pnl_vector := [2, 2] }

/-- A concrete short-history analytics store on the same instrument keys. -/
def wAnalyticsStore150 : String → Option InstrumentAnalytics :=
  fun c =>
    if c == ("I1") then some wAnalytics150
    else if c == ("I2") then some wAnalytics150b
    else none

/-- A concrete database with no positions. -/
def wDbEmpty : Database :=
  { instruments := fun _ => none, positions := [], tradingDesks := fun _ => none }

/-- A concrete position whose foreign keys resolve nowhere. -/
def wOrphan : Position :=
  { instrument_code := ("IX"), book_id := ("BX"), quantity := 1, purchase_price := 1 }

/-- A concrete database holding one well-joined and one orphaned position. -/
def wDbOrphan : Database :=
  { instruments := fun c => if c == ("I1") then some ⟨("EURUSD")⟩ else none,
    positions := [wPosition, wOrphan],
    tradingDesks := fun b => if b == ("B1") then some wDesk else none }

theorem vecAdd_nil_left (w : List ℚ) : vecAdd [] w = w := by
  cases w <;> rfl

theorem vecAdd_nil_right (v : List ℚ) : vecAdd v [] = v := by
  cases v <;> rfl

theorem vecAdd_cons (x y : ℚ) (v w : List ℚ) :
    vecAdd (x :: v) (y :: w) = (x + y) :: vecAdd v w := rfl

theorem vecAdd_comm (v w : List ℚ) : vecAdd v w = vecAdd w v := by
  induction v generalizing w with
  | nil => simp [vecAdd_nil_left, vecAdd_nil_right]
  | cons x v ih =>
    cases w with
    | nil => simp [vecAdd_nil_left, vecAdd_nil_right]
    | cons y w => simp [vecAdd_cons, ih, add_comm]

theorem vecAdd_assoc (u v w : List ℚ) :
    vecAdd (vecAdd u v) w = vecAdd u (vecAdd v w) := by
  induction u generalizing v w with
  | nil => simp [vecAdd_nil_left]
  | cons x u ih =>
    cases v with
    | nil => simp [vecAdd_nil_left, vecAdd_nil_right]
    | cons y v =>
      cases w with
      | nil => simp [vecAdd_nil_right, vecAdd_cons]
      | cons z w => simp [vecAdd_cons, ih, add_assoc]

theorem vecAdd_left_comm (u v w : List ℚ) :
    vecAdd u (vecAdd v w) = vecAdd v (vecAdd u w) := by
  rw [← vecAdd_assoc, vecAdd_comm u v, vecAdd_assoc]

theorem vecSum_nil : vecSum [] = [] := rfl

theorem vecSum_cons (v : List ℚ) (vs : List (List ℚ)) :
    vecSum (v :: vs) = vecAdd v (vecSum vs) := rfl

theorem vecSum_append (l1 l2 : List (List ℚ)) :
    vecSum (l1 ++ l2) = vecAdd (vecSum l1) (vecSum l2) := by
  induction l1 with
  | nil => simp [vecSum_nil, vecAdd_nil_left]
  | cons v l ih => simp [vecSum_cons, ih, vecAdd_assoc]

theorem vecSum_perm {l1 l2 : List (List ℚ)} (h : l1.Perm l2) :
    vecSum l1 = vecSum l2 := by
  induction h with
  | nil => rfl
  | cons x _ ih => simp [vecSum_cons, ih]
  | swap x y l => simp [vecSum_cons, vecAdd_left_comm]
  | trans _ _ ih1 ih2 => exact ih1.trans ih2

theorem vecScale_cons (a x : ℚ) (v : List ℚ) :
    vecScale a (x :: v) = a * x :: vecScale a v := rfl

theorem vecAdd_vecScale_same (a b : ℚ) (v : List ℚ) :
    vecAdd (vecScale a v) (vecScale b v) = vecScale (a + b) v := by
  induction v with
  | nil => rfl
  | cons x v ih => simp [vecScale_cons, vecAdd_cons, ih, add_mul]

theorem vecSum_scale_const (v : List ℚ) :
    ∀ qs : List ℚ, qs ≠ [] →
      vecSum (qs.map (fun q => vecScale q v)) = vecScale qs.sum v
  | [], h => absurd rfl h
  | [q], _ => by simp [vecSum_cons, vecSum_nil, vecAdd_nil_right]
  | q :: q2 :: qs, _ => by
    have ih := vecSum_scale_const v (q2 :: qs) (by simp)
    simp only [List.map_cons, vecSum_cons] at ih ⊢
    rw [ih, vecAdd_vecScale_same]
    simp [List.sum_cons]

theorem vecSum_groupBy {α : Type} (key : α → String) (g : String → List ℚ)
    (q : α → ℚ) :
    ∀ (cs : List String) (ps : List α), cs.Nodup →
      (∀ p ∈ ps, key p ∈ cs) →
      (∀ c ∈ cs, ∃ p ∈ ps, key p = c) →
      vecSum (cs.map (fun c =>
          vecScale (((ps.filter (fun p => key p == c)).map q).sum) (g c)))
        = vecSum (ps.map (fun p => vecScale (q p) (g (key p))))
  | [], ps, _, hmem, _ => by
    cases ps with
    | nil => rfl
    | cons p ps => exact absurd (hmem p (List.mem_cons_self p ps)) (List.not_mem_nil _)
  | c :: cs, ps, hnd, hmem, hwit => by
    have hc_not : c ∉ cs := (List.nodup_cons.mp hnd).1
    have hnd2 : cs.Nodup := (List.nodup_cons.mp hnd).2
    set psc := ps.filter (fun p => key p == c) with hpsc
    set psr := ps.filter (fun p => !(key p == c)) with hpsr
    have hperm : (psc ++ psr).Perm ps := List.filter_append_perm _ ps
    have hrhs :
        vecSum (ps.map (fun p => vecScale (q p) (g (key p))))
          = vecAdd (vecSum (psc.map (fun p => vecScale (q p) (g (key p)))))
              (vecSum (psr.map (fun p => vecScale (q p) (g (key p))))) := by
      rw [← vecSum_perm (hperm.map _), List.map_append, vecSum_append]
    have hkeyc : ∀ p ∈ psc, key p = c := by
      intro p hp
      have := (List.mem_filter.mp hp).2
      exact eq_of_beq this
    have hne : psc ≠ [] := by
      obtain ⟨p, hp, hkey⟩ := hwit c (List.mem_cons_self c cs)
      intro hempty
      have : p ∈ psc := List.mem_filter.mpr ⟨hp, by simp [hkey]⟩
      rw [hempty] at this
      exact List.not_mem_nil p this
    have hgroup :
        vecSum (psc.map (fun p => vecScale (q p) (g (key p))))
          = vecScale ((psc.map q).sum) (g c) := by
      have h1 : psc.map (fun p => vecScale (q p) (g (key p)))
          = psc.map (fun p => vecScale (q p) (g c)) := by
        apply List.map_congr_left
        intro p hp
        rw [hkeyc p hp]
      have h2 : psc.map (fun p => vecScale (q p) (g c))
          = (psc.map q).map (fun z => vecScale z (g c)) := by
        rw [List.map_map]
        rfl
      rw [h1, h2, vecSum_scale_const]
      intro hmap
      exact hne (List.map_eq_nil_iff.mp hmap)
    have hsum_eq : ∀ c2 ∈ cs,
        ((ps.filter (fun p => key p == c2)).map q).sum
          = ((psr.filter (fun p => key p == c2)).map q).sum := by
      intro c2 hc2
      have hcne : c2 ≠ c := fun h => hc_not (h ▸ hc2)
      have : psr.filter (fun p => key p == c2)
          = ps.filter (fun p => key p == c2) := by
        rw [hpsr, List.filter_filter]
        apply List.filter_congr
        intro p _
        cases hkp : (key p == c2) with
        | false => simp
        | true =>
          have : key p = c2 := eq_of_beq hkp
          simp [this, hcne]
      rw [this]
    have hmem2 : ∀ p ∈ psr, key p ∈ cs := by
      intro p hp
      have hps : p ∈ ps := (List.mem_filter.mp hp).1
      have hneq : ¬(key p == c) = true := by
        have := (List.mem_filter.mp hp).2
        simp at this
        simp [this]
      rcases List.mem_cons.mp (hmem p hps) with h | h
      · exact absurd (by simp [h]) hneq
      · exact h
    have hwit2 : ∀ c2 ∈ cs, ∃ p ∈ psr, key p = c2 := by
      intro c2 hc2
      obtain ⟨p, hp, hkey⟩ := hwit c2 (List.mem_cons_of_mem c hc2)
      refine ⟨p, List.mem_filter.mpr ⟨hp, ?_⟩, hkey⟩
      have hcne : c2 ≠ c := fun h => hc_not (h ▸ hc2)
      simp [hkey, hcne]
    have ih := vecSum_groupBy key g q cs psr hnd2 hmem2 hwit2
    have hlhs :
        (cs.map (fun c2 =>
            vecScale (((ps.filter (fun p => key p == c2)).map q).sum) (g c2)))
          = (cs.map (fun c2 =>
            vecScale (((psr.filter (fun p => key p == c2)).map q).sum) (g c2))) := by
      apply List.map_congr_left
      intro c2 hc2
      rw [hsum_eq c2 hc2]
    rw [List.map_cons, vecSum_cons, hlhs, ih, hrhs, hgroup]

/-- C1: the Position Vector measure at a hierarchy node equals the
element-wise sum, over all positions rolling up into the node, of the
position quantity multiplied by the historical PnL vector of the position
instrument. -/
theorem positionVector_eq_sum_over_positions
    (db : Database) (sc : Scenario) (node : List String) :
    positionVector db sc node
      = vecSum ((nodePositions db node).map
          (fun p => vecScale p.quantity (pnlVector sc p.instrument_code))) := by
  unfold positionVector nodeInstruments
  have := vecSum_groupBy Position.instrument_code (pnlVector sc) Position.quantity
    (((nodePositions db node).map Position.instrument_code).dedup)
    (nodePositions db node)
    (List.nodup_dedup _)
    (fun p hp => List.mem_dedup.mpr (List.mem_map_of_mem _ hp))
    (fun c hc => by
      obtain ⟨p, hp, hkey⟩ := List.mem_map.mp (List.mem_dedup.mp hc)
      exact ⟨p, hp, hkey⟩)
  rw [← this]
  rfl

theorem positionVector_single (db : Database) (sc : Scenario) (node : List String)
    (p : Position) (a : InstrumentAnalytics)
    (hpos : db.positions = [p]) (hroll : rollsUp db node p = true)
    (han : sc.analytics p.instrument_code = some a) :
    positionVector db sc node = vecScale p.quantity a.pnl_vector := by
  have hnp : nodePositions db node = [p] := by
    unfold nodePositions
    rw [hpos]
    simp [hroll]
  unfold positionVector nodeInstruments quantityOf pnlVector
  rw [hnp]
  simp [han, vecSum_cons, vecSum_nil, vecAdd_nil_right]

/-- C2: the VaR measure is the quantile of the Position Vector at level one
minus the confidence level; for a single-instrument single-position
portfolio it is that quantile of the quantity times the raw PnL vector of
the instrument. -/
theorem VaR_eq_quantile (db : Database) (sc : Scenario) (node : List String)
    (p : Position) (a : InstrumentAnalytics)
    (hne : positionVector db sc node ≠ []) :
    VaR db sc node
        = some (quantileLin (positionVector db sc node) (1 - sc.confidenceLevel))
      ∧ (db.positions = [p] → rollsUp db node p = true →
          sc.analytics p.instrument_code = some a →
          VaR db sc node
            = quantile (vecScale p.quantity a.pnl_vector) sc.confidenceLevel) := by
  constructor
  · unfold VaR quantile
    simp [List.isEmpty_iff, hne]
  · intro h1 h2 h3
    unfold VaR
    rw [positionVector_single db sc node p a h1 h2 h3]

/-- Witness for C2: a concrete one-position portfolio. -/
theorem VaR_eq_quantile_witness :
    VaR wDb wSc []
        = some (quantileLin (positionVector wDb wSc []) (1 - wSc.confidenceLevel))
      ∧ (wDb.positions = [wPosition] → rollsUp wDb [] wPosition = true →
          wSc.analytics wPosition.instrument_code = some wAnalytics →
          VaR wDb wSc []
            = quantile (vecScale wPosition.quantity wAnalytics.pnl_vector)
                wSc.confidenceLevel) :=
  VaR_eq_quantile wDb wSc [] wPosition wAnalytics (by decide)

theorem pathUnder_append (ns : List String) (v : String) :
    ∀ path : List String,
      pathUnder (ns ++ [v]) path
        = (pathUnder ns path && decide (ns.length < path.length)
            && (path.getD ns.length (childOf.blank) == v)) := by
  induction ns with
  | nil =>
    intro path
    cases path with
    | nil => rfl
    | cons y ys =>
      simp [pathUnder]
      exact eq_comm
  | cons x ns ih =>
    intro path
    cases path with
    | nil => simp [pathUnder]
    | cons y ys =>
      simp only [List.cons_append, pathUnder, List.append_eq, ih ys,
        List.length_cons, List.getD_cons_succ, Nat.succ_lt_succ_iff,
        Bool.and_assoc]

theorem rollsUp_child (db : Database) (parent : List String) (v : String)
    (p : Position) (h4 : parent.length < 4) :
    rollsUp db (parent ++ [v]) p
      = (rollsUp db parent p && (childOf db parent p == v)) := by
  unfold rollsUp childOf
  cases hdk : db.tradingDesks p.book_id with
  | none => rfl
  | some t =>
    show pathUnder (parent ++ [v]) (deskPath t)
        = (pathUnder parent (deskPath t)
            && ((deskPath t).getD parent.length (childOf.blank) == v))
    rw [pathUnder_append]
    have hlen : (deskPath t).length = 4 := rfl
    rw [hlen, decide_eq_true h4, Bool.and_true]

theorem nodePositions_child (db : Database) (parent : List String) (v : String)
    (h4 : parent.length < 4) :
    nodePositions db (parent ++ [v])
      = (nodePositions db parent).filter (fun p => childOf db parent p == v) := by
  unfold nodePositions
  rw [List.filter_filter]
  apply List.filter_congr
  intro p _
  rw [rollsUp_child db parent v p h4, Bool.and_comm]

theorem vecSum_partitionBy {α : Type} (key : α → String) (g : α → List ℚ) :
    ∀ (cs : List String) (ps : List α), cs.Nodup →
      (∀ p ∈ ps, key p ∈ cs) →
      vecSum (cs.map (fun c => vecSum ((ps.filter (fun p => key p == c)).map g)))
        = vecSum (ps.map g)
  | [], ps, _, hmem => by
    cases ps with
    | nil => rfl
    | cons p ps => exact absurd (hmem p (List.mem_cons_self p ps)) (List.not_mem_nil _)
  | c :: cs, ps, hnd, hmem => by
    have hc_not : c ∉ cs := (List.nodup_cons.mp hnd).1
    have hnd2 : cs.Nodup := (List.nodup_cons.mp hnd).2
    set psr := ps.filter (fun p => !(key p == c)) with hpsr
    have hperm : ((ps.filter (fun p => key p == c)) ++ psr).Perm ps :=
      List.filter_append_perm _ ps
    have hrhs : vecSum (ps.map g)
        = vecAdd (vecSum ((ps.filter (fun p => key p == c)).map g))
            (vecSum (psr.map g)) := by
      rw [← vecSum_perm (hperm.map _), List.map_append, vecSum_append]
    have hmem2 : ∀ p ∈ psr, key p ∈ cs := by
      intro p hp
      have hps : p ∈ ps := (List.mem_filter.mp hp).1
      have hneq : ¬(key p == c) = true := by
        have := (List.mem_filter.mp hp).2
        simp at this
        simp [this]
      rcases List.mem_cons.mp (hmem p hps) with h | h
      · exact absurd (by simp [h]) hneq
      · exact h
    have hfilter_eq : ∀ c2 ∈ cs,
        psr.filter (fun p => key p == c2) = ps.filter (fun p => key p == c2) := by
      intro c2 hc2
      have hcne : c2 ≠ c := fun h => hc_not (h ▸ hc2)
      rw [hpsr, List.filter_filter]
      apply List.filter_congr
      intro p _
      cases hkp : (key p == c2) with
      | false => simp
      | true =>
        have : key p = c2 := eq_of_beq hkp
        simp [this, hcne]
    have ih := vecSum_partitionBy key g cs psr hnd2 hmem2
    have hlhs : cs.map (fun c2 => vecSum ((ps.filter (fun p => key p == c2)).map g))
        = cs.map (fun c2 => vecSum ((psr.filter (fun p => key p == c2)).map g)) := by
      apply List.map_congr_left
      intro c2 hc2
      rw [hfilter_eq c2 hc2]
    rw [List.map_cons, vecSum_cons, hlhs, ih, hrhs]

theorem positionVector_children (db : Database) (sc : Scenario)
    (parent : List String) (h4 : parent.length < 4) :
    positionVector db sc parent
      = vecSum ((childValues db parent).map
          (fun v => positionVector db sc (parent ++ [v]))) := by
  have hmap : (childValues db parent).map
        (fun v => positionVector db sc (parent ++ [v]))
      = (childValues db parent).map (fun v =>
          vecSum (((nodePositions db parent).filter
              (fun p => childOf db parent p == v)).map
            (fun p => vecScale p.quantity (pnlVector sc p.instrument_code)))) := by
    apply List.map_congr_left
    intro v _
    rw [positionVector_eq_sum_over_positions, nodePositions_child db parent v h4]
  rw [positionVector_eq_sum_over_positions db sc parent, hmap]
  unfold childValues
  exact (vecSum_partitionBy (childOf db parent)
    (fun p => vecScale p.quantity (pnlVector sc p.instrument_code))
    (((nodePositions db parent).map (childOf db parent)).dedup)
    (nodePositions db parent)
    (List.nodup_dedup _)
    (fun p hp => List.mem_dedup.mpr (List.mem_map_of_mem _ hp))).symm

theorem positionVector_parent_split (db : Database) (sc : Scenario)
    (parent : List String) (x : String)
    (h4 : parent.length < 4) (hx : x ∈ childValues db parent) :
    positionVector db sc parent
      = vecAdd (positionVector db sc (parent ++ [x]))
          (parentPositionVectorEx db sc (parent ++ [x])) := by
  rw [positionVector_children db sc parent h4]
  have hnd : (childValues db parent).Nodup := List.nodup_dedup _
  have hperm : (childValues db parent).Perm (x :: (childValues db parent).erase x) :=
    List.perm_cons_erase hx
  have herase : (childValues db parent).erase x
      = (childValues db parent).filter (fun v => v != x) :=
    hnd.erase_eq_filter x
  have hsplit : vecSum ((childValues db parent).map
        (fun v => positionVector db sc (parent ++ [v])))
      = vecAdd (positionVector db sc (parent ++ [x]))
          (vecSum (((childValues db parent).filter (fun v => v != x)).map
            (fun v => positionVector db sc (parent ++ [v])))) := by
    rw [vecSum_perm (hperm.map _), List.map_cons, vecSum_cons, herase]
  rw [hsplit]
  congr 1
  unfold parentPositionVectorEx
  rw [List.dropLast_concat, List.getLastD_concat]
  rfl

/-- C3: the Marginal VaR measure at a non-root node is the VaR of the parent
minus the quantile of the Parent Position Vector Ex, the element-wise sum of
the Position Vectors of the siblings of the node excluding the node itself;
that sum is exactly the parent Position Vector with the node contribution
removed, since adding the node Position Vector back gives the parent
Position Vector. -/
theorem marginalVaR_parent_minus_ex (db : Database) (sc : Scenario)
    (parent : List String) (x : String)
    (h4 : parent.length < 4) (hx : x ∈ childValues db parent) :
    marginalVaR db sc (parent ++ [x])
        = (match VaR db sc parent,
               quantile (parentPositionVectorEx db sc (parent ++ [x]))
                 sc.confidenceLevel with
           | some a, some b => some (a - b)
           | _, _ => none)
      ∧ vecAdd (positionVector db sc (parent ++ [x]))
            (parentPositionVectorEx db sc (parent ++ [x]))
          = positionVector db sc parent := by
  refine ⟨?_, (positionVector_parent_split db sc parent x h4 hx).symm⟩
  unfold marginalVaR parentVaR parentVaREx
  rw [List.dropLast_concat]

/-- Witness for C3: the business unit BU1 under the root of the two-position
database. -/
theorem marginalVaR_parent_minus_ex_witness :
    marginalVaR wDb2 wSc ([] ++ [("BU1")])
        = (match VaR wDb2 wSc [],
               quantile (parentPositionVectorEx wDb2 wSc ([] ++ [("BU1")]))
                 wSc.confidenceLevel with
           | some a, some b => some (a - b)
           | _, _ => none)
      ∧ vecAdd (positionVector wDb2 wSc ([] ++ [("BU1")]))
            (parentPositionVectorEx wDb2 wSc ([] ++ [("BU1")]))
          = positionVector wDb2 wSc [] :=
  marginalVaR_parent_minus_ex wDb2 wSc [] ("BU1") (by decide) (by decide)

theorem quantileLin_zero (v : List ℚ) :
    quantileLin v 0 = (List.insertionSort (fun a b : ℚ => a ≤ b) v).getD 0 0 := by
  unfold quantileLin
  simp

theorem getD_insertionSort_zero_eq_min (v : List ℚ) (hne : v ≠ []) :
    some ((List.insertionSort (fun a b : ℚ => a ≤ b) v).getD 0 0) = v.min? := by
  have hperm := List.perm_insertionSort (fun a b : ℚ => a ≤ b) v
  have hsort := List.sorted_insertionSort (fun a b : ℚ => a ≤ b) v
  cases hs : List.insertionSort (fun a b : ℚ => a ≤ b) v with
  | nil =>
    rw [hs] at hperm
    exact absurd hperm.symm.eq_nil hne
  | cons m s =>
    rw [hs] at hperm hsort
    have hmem : m ∈ v := hperm.subset (List.mem_cons_self m s)
    have hle : ∀ b ∈ v, m ≤ b := by
      intro b hb
      have hb2 : b ∈ m :: s := hperm.mem_iff.mpr hb
      rcases List.mem_cons.mp hb2 with h | h
      · exact h ▸ le_refl m
      · exact (List.sorted_cons.mp hsort).1 b h
    haveI : Std.Antisymm (α := ℚ) (· ≤ ·) := ⟨fun h1 h2 => le_antisymm h1 h2⟩
    symm
    rw [List.min?_eq_some_iff (fun a : ℚ => le_refl a)
      (fun a b : ℚ => min_choice a b) (fun a b c : ℚ => le_min_iff)]
    exact ⟨hmem, hle⟩

/-- C4: at the Worst confidence-level scenario, confidence one, the VaR
measure is the minimum entry of the Position Vector of the node. -/
theorem VaR_worst_eq_min (db : Database) (sc : Scenario) (node : List String)
    (hw : sc.confidenceLevel = 1) :
    VaR db sc node = (positionVector db sc node).min? := by
  unfold VaR quantile
  rw [hw]
  by_cases hpv : positionVector db sc node = []
  · rw [hpv]
    rfl
  · rw [if_neg (by simpa using hpv)]
    have h0 : (1 : ℚ) - 1 = 0 := by norm_num
    rw [h0, quantileLin_zero]
    exact getD_insertionSort_zero_eq_min _ hpv

/-- Witness for C4: the Worst scenario on the concrete single-position
database. -/
theorem VaR_worst_eq_min_witness :
    VaR wDb wScWorst [] = (positionVector wDb wScWorst []).min? :=
  VaR_worst_eq_min wDb wScWorst [] rfl

/-- C5: two scenarios with the same analytics store and different
confidence levels give the same Position Vector at every node; the
confidence level only changes which quantile of that vector the VaR
measure reads. -/
theorem positionVector_confidence_frame (db : Database)
    (an : String → Option InstrumentAnalytics) (c1 c2 : ℚ) (node : List String) :
    positionVector db ⟨an, c1⟩ node = positionVector db ⟨an, c2⟩ node
      ∧ VaR db ⟨an, c1⟩ node = quantile (positionVector db ⟨an, c2⟩ node) c1 :=
  ⟨rfl, rfl⟩

/-- C6: swapping the analytics source, with the keys still resolving the
same, changes neither the Quantity measure at any node nor the join
structure of any position. -/
theorem shortVol_frame (db : Database)
    (an1 an2 : String → Option InstrumentAnalytics) (c1 c2 : ℚ)
    (node : List String) (p : Position)
    (hkeys : ∀ k, (an1 k).isSome = (an2 k).isSome) :
    Quantity db ⟨an1, c1⟩ node = Quantity db ⟨an2, c2⟩ node
      ∧ joinStructure db ⟨an1, c1⟩ p = joinStructure db ⟨an2, c2⟩ p := by
  refine ⟨rfl, ?_⟩
  simp only [joinStructure, hkeys p.instrument_code]

/-- Witness for C6: the 272-day and 150-day concrete stores on the
two-position database. -/
theorem shortVol_frame_witness :
    Quantity wDb2 ⟨wAnalyticsStore, 0.95⟩ [] = Quantity wDb2 ⟨wAnalyticsStore150, 0.98⟩ []
      ∧ joinStructure wDb2 ⟨wAnalyticsStore, 0.95⟩ wPosition
          = joinStructure wDb2 ⟨wAnalyticsStore150, 0.98⟩ wPosition :=
  shortVol_frame wDb2 wAnalyticsStore wAnalyticsStore150 0.95 0.98 [] wPosition
    (by
      intro k
      unfold wAnalyticsStore wAnalyticsStore150
      by_cases h1 : k == ("I1") <;> by_cases h2 : k == ("I2") <;> simp [h1, h2])

/-- C7: a node whose Position Vector is the empty vector has undefined VaR,
an explicit failure value rather than a numeric sentinel. -/
theorem VaR_empty_vector_fails (db : Database) (sc : Scenario)
    (node : List String) (h : positionVector db sc node = []) :
    VaR db sc node = none := by
  unfold VaR quantile
  rw [h]
  rfl

/-- Witness for C7: the empty database. -/
theorem VaR_empty_vector_fails_witness : VaR wDbEmpty wSc [] = none :=
  VaR_empty_vector_fails wDbEmpty wSc [] (by decide)

/-- C8: a position with a dangling instrument or book reference is reported
in the orphan report and kept out of the joined model, and every position
lands either in the joined model or in the report, never silently dropped. -/
theorem orphan_reported_not_dropped (db : Database)
    (an : String → Option InstrumentAnalytics) (p : Position)
    (hp : p ∈ db.positions) :
    (orphaned db an p = true →
        p ∈ orphanReport db an ∧ p ∉ joinedPositions db an)
      ∧ (p ∈ joinedPositions db an ∨ p ∈ orphanReport db an) := by
  constructor
  · intro ho
    refine ⟨List.mem_filter.mpr ⟨hp, ho⟩, ?_⟩
    intro hj
    have hcontra := (List.mem_filter.mp hj).2
    rw [ho] at hcontra
    exact absurd hcontra (by simp)
  · cases ho : orphaned db an p with
    | true => exact Or.inr (List.mem_filter.mpr ⟨hp, ho⟩)
    | false =>
      refine Or.inl (List.mem_filter.mpr ⟨hp, ?_⟩)
      rw [ho]
      rfl

/-- Witness for C8: the orphaned position of the concrete database. -/
theorem orphan_reported_not_dropped_witness :
    (orphaned wDbOrphan wAnalyticsStore wOrphan = true →
        wOrphan ∈ orphanReport wDbOrphan wAnalyticsStore
          ∧ wOrphan ∉ joinedPositions wDbOrphan wAnalyticsStore)
      ∧ (wOrphan ∈ joinedPositions wDbOrphan wAnalyticsStore
          ∨ wOrphan ∈ orphanReport wDbOrphan wAnalyticsStore) :=
  orphan_reported_not_dropped wDbOrphan wAnalyticsStore wOrphan (by decide)

end VaRNotebook

namespace WaitScript

theorem iteration_failure (r : Response) (h : isSuccess r = false) :
    (iteration r).2 = false
      ∧ ∃ evs, (iteration r).1 = evs ++ [Event.slept 2] ∧ evs ≠ [] := by
  cases r with
  | status c =>
    have hc : (c == 200) = false := h
    simp only [iteration, tryBody]
    rw [hc]
    exact ⟨rfl,
      [Event.printed (("Waiting for URL, current status is ") ++ toString c)],
      rfl, by simp⟩
  | exc m =>
    unfold iteration tryBody
    exact ⟨rfl,
      [Event.printed m, Event.printed ("Waiting for URL, connexion failed")],
      rfl, by simp⟩

theorem runFor_fail (resp : Nat → Response)
    (hfail : ∀ i, isSuccess (resp i) = false) :
    ∀ (fuel i : Nat),
      (runFor resp i fuel).2 = none
        ∧ (runFor resp i fuel).1
            = (List.range' i fuel).flatMap (fun j => (iteration (resp j)).1)
  | 0, _ => ⟨rfl, rfl⟩
  | fuel + 1, i => by
    have hb : (iteration (resp i)).2 = false := (iteration_failure (resp i) (hfail i)).1
    have ih := runFor_fail resp hfail fuel (i + 1)
    unfold runFor
    rw [hb]
    rw [if_neg (by simp)]
    exact ⟨ih.1, by rw [ih.2, List.range'_succ, List.flatMap_cons]⟩

/-- C9: against a response sequence in which no request ever returns status
200, the polling loop never breaks at any fuel, its trace is one block per
attempt, and every such block logs at least one line and ends with the fixed
two-second sleep before the retry. -/
theorem poll_never_terminates (resp : Nat → Response)
    (hfail : ∀ i, isSuccess (resp i) = false) :
    (∀ i fuel, (runFor resp i fuel).2 = none
        ∧ (runFor resp i fuel).1
            = (List.range' i fuel).flatMap (fun j => (iteration (resp j)).1))
      ∧ ∀ j, ∃ evs, (iteration (resp j)).1 = evs ++ [Event.slept 2] ∧ evs ≠ [] := by
  constructor
  · intro i fuel
    exact runFor_fail resp hfail fuel i
  · intro j
    exact (iteration_failure (resp j) (hfail j)).2

/-- Witness for C9: a server that always answers 503 keeps the loop running
past three attempts. -/
theorem poll_never_terminates_witness :
    (runFor (fun _ => Response.status 503) 0 3).2 = none :=
  ((poll_never_terminates (fun _ => Response.status 503) (fun _ => rfl)).1 0 3).1

theorem iteration_broke_iff (r : Response) :
    (iteration r).2 = true ↔ r = Response.status 200 := by
  cases r with
  | status c =>
    by_cases hc : c = 200
    · subst hc
      simp [iteration, tryBody]
    · have hcb : (c == 200) = false := by simp [hc]
      simp only [iteration, tryBody]
      rw [hcb]
      simp [hc]
  | exc m => simp [iteration, tryBody]

theorem runFor_isSome_iff (resp : Nat → Response) :
    ∀ (fuel i : Nat),
      (runFor resp i fuel).2.isSome = true
        ↔ ∃ j, i ≤ j ∧ j < i + fuel ∧ resp j = Response.status 200
  | 0, i => by
    constructor
    · intro h
      exact absurd h (by simp [runFor])
    · rintro ⟨j, h1, h2, _⟩
      omega
  | fuel + 1, i => by
    by_cases hb : (iteration (resp i)).2 = true
    · have hsucc : resp i = Response.status 200 := (iteration_broke_iff (resp i)).mp hb
      constructor
      · intro _
        exact ⟨i, le_refl i, by omega, hsucc⟩
      · intro _
        unfold runFor
        rw [hb]
        simp
    · have hbf : (iteration (resp i)).2 = false := by
        cases h2 : (iteration (resp i)).2
        · rfl
        · exact absurd h2 hb
      have hns : resp i ≠ Response.status 200 :=
        fun h => hb ((iteration_broke_iff (resp i)).mpr h)
      have ih := runFor_isSome_iff resp fuel (i + 1)
      unfold runFor
      rw [hbf]
      rw [if_neg (by simp)]
      show (runFor resp (i + 1) fuel).2.isSome = true ↔ _
      rw [ih]
      constructor
      · rintro ⟨j, h1, h2, h3⟩
        exact ⟨j, by omega, by omega, h3⟩
      · rintro ⟨j, h1, h2, h3⟩
        have hji : j ≠ i := fun he => hns (he ▸ h3)
        exact ⟨j, by omega, by omega, h3⟩

/-- C10: the loop breaks within a given fuel exactly when some earlier
request returns status 200; the exception path of a request is caught by the
handler and turned into the two log lines and the sleep rather than a
propagated error; and the successful iteration prints the ready line and
breaks at once, with no sleep in its trace. -/
theorem poll_terminates_iff_200 (resp : Nat → Response) (fuel : Nat) :
    ((runFor resp 0 fuel).2.isSome = true
        ↔ ∃ i, i < fuel ∧ resp i = Response.status 200)
      ∧ (∀ m, tryBody (Response.exc m) = Except.error m
          ∧ iteration (Response.exc m)
            = ([Event.printed m,
                Event.printed ("Waiting for URL, connexion failed"),
                Event.slept 2], false))
      ∧ iteration (Response.status 200)
          = ([Event.printed ("URL is ready")], true) := by
  refine ⟨?_, fun m => ⟨rfl, rfl⟩, rfl⟩
  rw [runFor_isSome_iff resp fuel 0]
  constructor
  · rintro ⟨j, _, h2, h3⟩
    exact ⟨j, by omega, h3⟩
  · rintro ⟨j, h2, h3⟩
    exact ⟨j, by omega, by omega, h3⟩

end WaitScript
